import Mathlib

/-!
# Verification of the ConfigDB schema compiler (`tools/dbgen.py`)

A shallow embedding of the algorithmic core of the ConfigDB code generator:
integer width deduction (`IntRange`), string interning (`StringTable`),
property construction (`Property.__init__`), binary layout computation
(`Object.data_size` / `generate_typeinfo` offsets, `Union` sizing), and the
reference-resolution / node-deduplication loop of `parse_property`.

Python integers are embedded as `Int`/`Nat`; Python floats (JSON numbers)
are idealised as `Rat`; Python exceptions become `Except` values.
-/

namespace ConfigDB

/-! ## Constants (dbgen.py lines 11-43) -/

def MAX_STRINGID_LEN : Nat := 32

/-- `CPP_TYPENAMES` dict (lines 13-21), as an association list in source order. -/
def CPP_TYPENAMES : List (String × String) :=
  [("object", "-"), ("array", "-"), ("union", "-"),
   ("string", "String"), ("integer", "int"), ("boolean", "bool"),
   ("number", "ConfigDB::Number")]

def STRING_ID_SIZE : Nat := 2
def ARRAY_ID_SIZE : Nat := 2

/-- `NUMBER_MIN = -1e100` (line 26), exact as a rational. -/
def NUMBER_MIN : Rat := -((10 : Rat) ^ (100 : Nat))
/-- `NUMBER_MAX = 1e100` (line 27). -/
def NUMBER_MAX : Rat := (10 : Rat) ^ (100 : Nat)

/-- `CPP_TYPESIZES` dict (lines 29-41); lookup failure models a Python `KeyError`. -/
def CPP_TYPESIZES : List (String × Nat) :=
  [("bool", 1), ("int8_t", 1), ("int16_t", 2), ("int32_t", 4), ("int64_t", 8),
   ("uint8_t", 1), ("uint16_t", 2), ("uint32_t", 4), ("uint64_t", 8),
   ("ConfigDB::Number", 4), ("String", STRING_ID_SIZE)]

/-! ## `IntRange` (dbgen.py lines 98-127)

`IntRange.deduce` starts at 8 bits and doubles while the declared range
exceeds the representable range; signedness is `minval < 0`.
-/

/-- `IntRange.typemin` (lines 110-112): `-(2 ** (bits - 1))` if signed else `0`. -/
def typemin (is_signed : Bool) (bits : Nat) : Int :=
  if is_signed then -((2 : Int) ^ (bits - 1)) else 0

/-- `IntRange.typemax` (lines 114-119): `2 ** (bits - [1 if signed]) - 1`. -/
def typemax (is_signed : Bool) (bits : Nat) : Int :=
  (2 : Int) ^ (if is_signed then bits - 1 else bits) - 1

structure IntRange where
  minimum : Int
  maximum : Int
  is_signed : Bool
  bits : Nat
  deriving DecidableEq, Repr

/-- `IntRange.ctype` (lines 121-123). -/
def IntRange.ctype (r : IntRange) : String :=
  if r.is_signed then s!"int{r.bits}_t" else s!"uint{r.bits}_t"

/-- `IntRange.property_type` (lines 125-127). -/
def IntRange.property_type (r : IntRange) : String :=
  if r.is_signed then s!"Int{r.bits}" else s!"UInt{r.bits}"

/-- Loop condition of `IntRange.deduce` (line 106):
`minval < r.typemin or maxval > r.typemax`, with `r.is_signed = (minval < 0)`. -/
def deduceCond (minval maxval : Int) (bits : Nat) : Prop :=
  minval < typemin (minval < 0) bits ∨ typemax (minval < 0) bits < maxval

instance (minval maxval : Int) (bits : Nat) : Decidable (deduceCond minval maxval bits) := by
  unfold deduceCond; infer_instance

lemma typemin_of_neg {m : Int} (hm : m < 0) (bits : Nat) :
    typemin (m < 0) bits = -((2 : Int) ^ (bits - 1)) := by
  simp [typemin, hm]

lemma typemin_of_nonneg {m : Int} (hm : ¬ m < 0) (bits : Nat) :
    typemin (m < 0) bits = 0 := by
  simp [typemin, hm]

lemma typemax_of_neg {m : Int} (hm : m < 0) (bits : Nat) :
    typemax (m < 0) bits = (2 : Int) ^ (bits - 1) - 1 := by
  simp [typemax, hm]

lemma typemax_of_nonneg {m : Int} (hm : ¬ m < 0) (bits : Nat) :
    typemax (m < 0) bits = (2 : Int) ^ bits - 1 := by
  simp [typemax, hm]

lemma bits_lt_of_deduceCond (minval maxval : Int) (bits : Nat) (hb : 0 < bits)
    (h : deduceCond minval maxval bits) :
    bits < minval.natAbs + maxval.natAbs + 2 := by
  have hpow : (bits : Int) ≤ (2 : Int) ^ (bits - 1) := by
    have h1 : bits - 1 < 2 ^ (bits - 1) := Nat.lt_two_pow (bits - 1)
    have h2 : bits ≤ 2 ^ (bits - 1) := by omega
    exact_mod_cast h2
  have hmono : (2 : Int) ^ (bits - 1) ≤ (2 : Int) ^ bits :=
    pow_le_pow_right₀ (by norm_num) (by omega)
  unfold deduceCond at h
  by_cases hs : minval < 0
  · rw [typemin_of_neg hs, typemax_of_neg hs] at h
    rcases h with h | h <;> omega
  · rw [typemin_of_nonneg hs, typemax_of_nonneg hs] at h
    rcases h with h | h <;> omega

/-- The `while` loop of `IntRange.deduce` (lines 105-107): double `bits`
while the declared range exceeds the representable range.  The `bits = 0`
guard is never reached from `IntRange.deduce`, which starts at 8. -/
def deduceBits (minval maxval : Int) (bits : Nat) : Nat :=
  if h0 : bits = 0 then 0
  else if h : deduceCond minval maxval bits then
    deduceBits minval maxval (bits * 2)
  else bits
termination_by 2 * (minval.natAbs + maxval.natAbs + 2) - bits
decreasing_by
  have := bits_lt_of_deduceCond minval maxval bits (by omega) h
  omega

/-- `IntRange.deduce` (lines 103-108). -/
def IntRange.deduce (minval maxval : Int) : IntRange :=
  ⟨minval, maxval, minval < 0, deduceBits minval maxval 8⟩

lemma deduceBits_stop (minval maxval : Int) (bits : Nat) (h0 : bits ≠ 0)
    (h : ¬ deduceCond minval maxval bits) :
    deduceBits minval maxval bits = bits := by
  rw [deduceBits]; simp [h0, h]

lemma deduceBits_go (minval maxval : Int) (bits : Nat) (h0 : bits ≠ 0)
    (h : deduceCond minval maxval bits) :
    deduceBits minval maxval bits = deduceBits minval maxval (bits * 2) := by
  rw [deduceBits]; simp [h0, h]

/-- On exit, the loop condition fails: the deduced width represents both bounds. -/
lemma deduceBits_not_cond (minval maxval : Int) (bits : Nat) :
    0 < bits → ¬ deduceCond minval maxval (deduceBits minval maxval bits) := by
  induction bits using deduceBits.induct minval maxval with
  | case1 => omega
  | case2 bits h0 h ih =>
      intro _
      rw [deduceBits_go minval maxval bits h0 h]
      exact ih (by omega)
  | case3 bits h0 h =>
      intro _
      rw [deduceBits_stop minval maxval bits h0 h]
      exact h

/-- The loop only doubles: the result is the start width times a power of two. -/
lemma deduceBits_shape (minval maxval : Int) (bits : Nat) :
    0 < bits → ∃ k, deduceBits minval maxval bits = bits * 2 ^ k := by
  induction bits using deduceBits.induct minval maxval with
  | case1 => omega
  | case2 bits h0 h ih =>
      intro _
      obtain ⟨k, hk⟩ := ih (by omega)
      exact ⟨k + 1, by rw [deduceBits_go minval maxval bits h0 h, hk]; ring⟩
  | case3 bits h0 h =>
      intro _
      exact ⟨0, by rw [deduceBits_stop minval maxval bits h0 h]; ring⟩

/-- Every width the loop visited strictly below the result failed the test. -/
lemma deduceBits_minimal (minval maxval : Int) (bits : Nat) :
    0 < bits → ∀ j, bits * 2 ^ j < deduceBits minval maxval bits →
      deduceCond minval maxval (bits * 2 ^ j) := by
  induction bits using deduceBits.induct minval maxval with
  | case1 => omega
  | case2 bits h0 h ih =>
      intro _ j hj
      rw [deduceBits_go minval maxval bits h0 h] at hj
      match j with
      | 0 => simpa using h
      | j + 1 =>
          have he : bits * 2 ^ (j + 1) = bits * 2 * 2 ^ j := by ring
          rw [he] at hj ⊢
          exact ih (by omega) j hj
  | case3 bits h0 h =>
      intro _ j hj
      rw [deduceBits_stop minval maxval bits h0 h] at hj
      have h1 : (0 : Nat) < 2 ^ j := Nat.pos_pow_of_pos j (by norm_num)
      have h2 : bits ≤ bits * 2 ^ j := Nat.le_mul_of_pos_right bits h1
      omega

/-- `IntRange.typemin` as a member accessor (lines 110-112). -/
def IntRange.typemin (r : IntRange) : Int := ConfigDB.typemin r.is_signed r.bits

/-- `IntRange.typemax` as a member accessor (lines 114-119). -/
def IntRange.typemax (r : IntRange) : Int := ConfigDB.typemax r.is_signed r.bits

/-- **C2.** For every integer property with declared bounds `(minimum, maximum)`,
the pair `(is_signed, bits)` deduced by `IntRange.deduce` satisfies
`is_signed = (minimum < 0)`, `typemin ≤ minimum`, `maximum ≤ typemax`,
`bits` is `8` times a power of two, and `bits` is minimal: no smaller power of
two `≥ 8` with the same signedness represents both bounds. -/
theorem C2_integer_width_minimality (minimum maximum : Int) :
    (IntRange.deduce minimum maximum).is_signed = decide (minimum < 0) ∧
    (IntRange.deduce minimum maximum).typemin ≤ minimum ∧
    maximum ≤ (IntRange.deduce minimum maximum).typemax ∧
    (∃ k, (IntRange.deduce minimum maximum).bits = 8 * 2 ^ k) ∧
    (∀ b, 8 ≤ b → (∃ m, b = 2 ^ m) →
      b < (IntRange.deduce minimum maximum).bits →
      ¬ (typemin (IntRange.deduce minimum maximum).is_signed b ≤ minimum ∧
         maximum ≤ typemax (IntRange.deduce minimum maximum).is_signed b)) := by
  have hnc := deduceBits_not_cond minimum maximum 8 (by norm_num)
  unfold deduceCond at hnc
  push_neg at hnc
  refine ⟨rfl, hnc.1, hnc.2, deduceBits_shape minimum maximum 8 (by norm_num), ?_⟩
  rintro b hb8 ⟨m, rfl⟩ hlt ⟨hmin, hmax⟩
  have hm3 : 3 ≤ m := by
    by_contra hc
    interval_cases m <;> omega
  have hb : 2 ^ m = 8 * 2 ^ (m - 3) := by
    have : m = 3 + (m - 3) := by omega
    rw [this, pow_add]
    norm_num
  have hcond := deduceBits_minimal minimum maximum 8 (by norm_num) (m - 3) (by rw [← hb]; exact hlt)
  rw [← hb] at hcond
  unfold deduceCond at hcond
  rcases hcond with hc | hc <;>
    exact absurd (by assumption) (by simp only [IntRange.deduce] at hmin hmax ⊢; omega)

/-- Witness for C2 at `(minimum, maximum) = (0, 300)`: the deduced width is 16,
and 8 bits (the next smaller admissible power of two) cannot represent 300. -/
theorem C2_integer_width_minimality_witness :
    ¬ (typemin (IntRange.deduce 0 300).is_signed 8 ≤ 0 ∧
       (300 : Int) ≤ typemax (IntRange.deduce 0 300).is_signed 8) := by
  have hbits : (IntRange.deduce 0 300).bits = 16 := by
    show deduceBits 0 300 8 = 16
    rw [deduceBits_go 0 300 8 (by norm_num) (by decide),
        deduceBits_stop 0 300 16 (by norm_num) (by decide)]
  exact (C2_integer_width_minimality 0 300).2.2.2.2 8 (by norm_num) ⟨3, by norm_num⟩
    (by rw [hbits]; norm_num)

/-- Missing-bound handling for integer properties (`Property.__init__`,
lines 180-185): an absent `minimum`/`maximum` defaults to the corresponding
`int32` limit before width deduction. -/
def resolveIntBounds (minval maxval : Option Int) : IntRange :=
  let int32 : IntRange := ⟨0, 0, true, 32⟩
  let minval := minval.getD int32.typemin
  let maxval := maxval.getD int32.typemax
  IntRange.deduce minval maxval

/-- **C10.** An integer property that declares neither bound gets the signed
32-bit limits `[-2^31, 2^31 - 1]`, and the resolved storage type is signed
32-bit (`int32_t`); a property declaring only one bound gets the int32 limit
for the other bound. -/
theorem C10_integer_default_bounds_int32 :
    resolveIntBounds none none = IntRange.deduce (-(2 ^ 31)) (2 ^ 31 - 1) ∧
    (resolveIntBounds none none).is_signed = true ∧
    (resolveIntBounds none none).bits = 32 ∧
    (resolveIntBounds none none).ctype = "int32_t" ∧
    (∀ m : Int, resolveIntBounds (some m) none = IntRange.deduce m (2 ^ 31 - 1)) ∧
    (∀ M : Int, resolveIntBounds none (some M) = IntRange.deduce (-(2 ^ 31)) M) := by
  have he : resolveIntBounds none none = IntRange.deduce (-(2 ^ 31)) (2 ^ 31 - 1) := by
    simp [resolveIntBounds, IntRange.typemin, IntRange.typemax, typemin, typemax]
  have hbits : (IntRange.deduce (-(2 ^ 31) : Int) (2 ^ 31 - 1)).bits = 32 := by
    show deduceBits (-(2 ^ 31)) (2 ^ 31 - 1) 8 = 32
    rw [deduceBits_go _ _ 8 (by norm_num) (by decide),
        deduceBits_go _ _ 16 (by norm_num) (by decide),
        deduceBits_stop _ _ 32 (by norm_num) (by decide)]
  have hsgn : (IntRange.deduce (-(2 ^ 31) : Int) (2 ^ 31 - 1)).is_signed = true := by
    show decide ((-(2 ^ 31) : Int) < 0) = true
    decide
  refine ⟨he, by rw [he]; exact hsgn, by rw [he]; exact hbits, ?_, ?_, ?_⟩
  · rw [he]
    unfold IntRange.ctype
    rw [hsgn, hbits]
    rfl
  · intro m
    simp [resolveIntBounds, IntRange.typemin, IntRange.typemax, typemin, typemax]
  · intro M
    simp [resolveIntBounds, IntRange.typemin, IntRange.typemax, typemin, typemax]

/-! ## `make_identifier` (dbgen.py lines 545-556) -/

/-- `re.sub(r'[^A-Za-z0-9]+', '_', s)`: replace each maximal run of
non-alphanumeric (ASCII) characters by a single underscore. -/
def subNonAlnum : List Char → List Char
  | [] => []
  | c :: cs =>
    if c.isAlphanum then c :: subNonAlnum cs
    else '_' :: subNonAlnum (cs.dropWhile (fun d => !d.isAlphanum))
termination_by l => l.length
decreasing_by
  · simp
  · have := (List.dropWhile_sublist (l := cs) (fun d => !d.isAlphanum)).length_le
    simp
    omega

/-- The camel-casing fold of `make_identifier` (lines 549-556): an `_` or `-`
sets the upcase flag; other characters are emitted, upcased when flagged. -/
def camelFold (up : Bool) : List Char → List Char
  | [] => []
  | c :: cs =>
    if c = '-' ∨ c = '_' then camelFold true cs
    else (if up then c.toUpper else c) :: camelFold false cs

/-- `make_identifier(s, is_type)` (lines 545-556). -/
def make_identifier (s : String) (is_type : Bool := false) : String :=
  String.mk (camelFold is_type (subNonAlnum s.data))

/-! ## Injectivity of decimal representation

`StringTable.get_index` disambiguates colliding identifiers with the suffixes
`_0`, `_1`, `_2`, ... (line 71); the loop terminates because the decimal
representations of distinct naturals are distinct, so only finitely many
candidates can collide with the finite key list. -/

lemma toDigitsCore_spec : ∀ (n fuel : Nat) (ds : List Char), n < fuel →
    Nat.toDigitsCore 10 fuel n ds =
      (if n = 0 then ['0'] else ((Nat.digits 10 n).map Nat.digitChar).reverse) ++ ds := by
  intro n
  induction n using Nat.strong_induction_on with
  | _ n ih =>
    intro fuel ds hfuel
    obtain ⟨f, rfl⟩ : ∃ f, fuel = f + 1 := ⟨fuel - 1, by omega⟩
    show Nat.toDigitsCore 10 (f + 1) n ds = _
    simp only [Nat.toDigitsCore]
    by_cases hdiv : n / 10 = 0
    · have hlt : n < 10 := by omega
      rw [if_pos hdiv]
      by_cases hn : n = 0
      · subst hn; rfl
      · rw [if_neg hn, Nat.digits_of_lt 10 n hn hlt, Nat.mod_eq_of_lt hlt]
        rfl
    · rw [if_neg hdiv]
      have hn : n ≠ 0 := by omega
      have h10 : 10 ≤ n := by omega
      have hstep := ih (n / 10) (by omega) f (Nat.digitChar (n % 10) :: ds) (by omega)
      rw [hstep, if_neg hdiv, if_neg hn,
          Nat.digits_def' (by norm_num : (1:Nat) < 10) (by omega : 0 < n)]
      simp [List.append_assoc]

lemma toDigits_eq_digits (n : Nat) :
    Nat.toDigits 10 n =
      if n = 0 then ['0'] else ((Nat.digits 10 n).map Nat.digitChar).reverse := by
  have h := toDigitsCore_spec n (n + 1) [] (by omega)
  simpa [Nat.toDigits] using h

lemma digitChar_injOn : ∀ a, a < 10 → ∀ b, b < 10 →
    Nat.digitChar a = Nat.digitChar b → a = b := by decide

lemma map_digitChar_inj : ∀ (l1 l2 : List Nat), (∀ x ∈ l1, x < 10) → (∀ x ∈ l2, x < 10) →
    l1.map Nat.digitChar = l2.map Nat.digitChar → l1 = l2
  | [], [] => by simp
  | [], _ :: _ => by simp
  | _ :: _, [] => by simp
  | a :: l1, b :: l2 => by
      intro h1 h2 h
      simp only [List.map_cons, List.cons.injEq] at h
      have hab := digitChar_injOn a (h1 a (by simp)) b (h2 b (by simp)) h.1
      have := map_digitChar_inj l1 l2 (fun x hx => h1 x (by simp [hx]))
        (fun x hx => h2 x (by simp [hx])) h.2
      simp [hab, this]

lemma nat_repr_injective : Function.Injective Nat.repr := by
  intro m n h
  have hd : Nat.toDigits 10 m = Nat.toDigits 10 n := by
    have := congrArg String.data h
    simpa [Nat.repr, List.asString] using this
  rw [toDigits_eq_digits, toDigits_eq_digits] at hd
  have hzero : ∀ k : Nat, k ≠ 0 →
      ((Nat.digits 10 k).map Nat.digitChar).reverse ≠ ['0'] := by
    intro k hk hcon
    have hrev := congrArg List.reverse hcon
    simp only [List.reverse_reverse] at hrev
    have : Nat.digits 10 k = [0] := by
      apply map_digitChar_inj _ _ (fun x hx => Nat.digits_lt_base (by norm_num) hx)
        (by intro x hx; simp at hx; omega)
      simpa using hrev
    have := congrArg (Nat.ofDigits 10) this
    rw [Nat.ofDigits_digits] at this
    simp [Nat.ofDigits] at this
    exact hk this
  by_cases hm : m = 0 <;> by_cases hn : n = 0
  · omega
  · rw [if_pos hm, if_neg hn] at hd
    exact absurd hd.symm (hzero n hn)
  · rw [if_neg hm, if_pos hn] at hd
    exact absurd hd (hzero m hm)
  · rw [if_neg hm, if_neg hn] at hd
    have hmaps := congrArg List.reverse hd
    simp only [List.reverse_reverse] at hmaps
    have := map_digitChar_inj _ _
      (fun x hx => Nat.digits_lt_base (by norm_num) hx)
      (fun x hx => Nat.digits_lt_base (by norm_num) hx) hmaps
    exact Nat.digits_inj_iff.mp this

/-! ## `StringTable` (dbgen.py lines 47-80) -/

structure StringTable where
  keys : List String
  values : List String
  deriving DecidableEq, Repr

/-- The freshly-constructed table (lines 52-54): slot 0 holds the empty
string under the identifier `empty`. -/
def StringTable.start : StringTable := ⟨["empty"], [""]⟩

/-- The suffix-disambiguation loop (lines 70-73) tries `ident_0`, `ident_1`,
... ; distinct naturals have distinct decimal representations, so some
candidate avoids the finite key list. -/
lemma exists_fresh (keys : List String) (ident : String) :
    ∃ i : Nat, (ident ++ "_" ++ Nat.repr i) ∉ keys := by
  by_contra hcon
  push_neg at hcon
  have hinj : Function.Injective (fun i : Nat => ident ++ "_" ++ Nat.repr i) := by
    intro a b hab
    have hd := congrArg String.data hab
    simp only [String.data_append, List.append_assoc] at hd
    have := List.append_cancel_left hd
    have := List.append_cancel_left this
    exact nat_repr_injective (String.ext this)
  have hcard := Finset.card_le_card_of_injOn (fun i : Nat => ident ++ "_" ++ Nat.repr i)
    (fun i _ => List.mem_toFinset.mpr (hcon i)) (hinj.injOn)
    (s := Finset.range (keys.length + 1)) (t := keys.toFinset)
  rw [Finset.card_range] at hcard
  have := keys.toFinset_card_le
  omega

/-- The collision-avoidance step of `get_index` (lines 69-73): if the
candidate identifier is taken, append the first numeric suffix `_i` (least
`i` starting from 0, as the `while` loop does) that is not in `keys`. -/
def pickIdent (keys : List String) (ident1 : String) : String :=
  if ident1 ∈ keys then
    ident1 ++ "_" ++ Nat.repr (Nat.find (exists_fresh keys ident1))
  else ident1

lemma pickIdent_not_mem (keys : List String) (ident1 : String) :
    pickIdent keys ident1 ∉ keys := by
  unfold pickIdent
  split
  · exact Nat.find_spec (exists_fresh keys ident1)
  · assumption

/-- `StringTable.get_index` (lines 61-77).  Looks the value up in `values`
first; on a miss derives a sanitized identifier, disambiguates it with a
numeric suffix, appends both and returns the new slot.  Note `value or ''`
is the identity on strings, so the lookup is simply by `value`. -/
def StringTable.get_index (t : StringTable) (value : String) : StringTable × Nat :=
  match t.values.findIdx? (fun v => v == value) with
  | some i => (t, i)
  | none =>
    let ident0 := (make_identifier value).take MAX_STRINGID_LEN
    let ident1 := if ident0 = "" then Nat.repr t.values.length else ident0
    (⟨t.keys ++ [pickIdent t.keys ident1], t.values ++ [value]⟩, t.keys.length)

/-- Tables reachable from the pre-seeded table by interning operations. -/
inductive StringTable.Reachable : StringTable → Prop where
  | start : StringTable.Reachable StringTable.start
  | step (t : StringTable) (v : String) :
      StringTable.Reachable t → StringTable.Reachable (t.get_index v).1

/-- Structural invariant of the string table: key and value columns have
equal length, slot 0 holds the empty string, and identifiers are distinct. -/
def StringTable.WF (t : StringTable) : Prop :=
  t.keys.length = t.values.length ∧ t.values.head? = some "" ∧ t.keys.Nodup

lemma StringTable.wf_start : StringTable.start.WF :=
  ⟨rfl, rfl, List.nodup_singleton _⟩

lemma StringTable.wf_step (t : StringTable) (v : String) (h : t.WF) :
    (t.get_index v).1.WF := by
  obtain ⟨hlen, hhead, hnodup⟩ := h
  unfold StringTable.get_index
  match hidx : t.values.findIdx? (fun w => w == v) with
  | some i => exact ⟨hlen, hhead, hnodup⟩
  | none =>
    refine ⟨by simp [hlen], ?_, ?_⟩
    · cases hv : t.values with
      | nil => rw [hv] at hhead; exact absurd hhead (by simp)
      | cons w ws =>
          rw [hv] at hhead
          simp only [List.head?_cons, Option.some.injEq] at hhead
          simp [hv, hhead]
    · rw [List.nodup_append]
      refine ⟨hnodup, List.nodup_singleton _, ?_⟩
      intro a ha hb
      rw [List.mem_singleton] at hb
      subst hb
      exact absurd ha (pickIdent_not_mem _ _)

lemma StringTable.wf_of_reachable {t : StringTable} (h : t.Reachable) : t.WF := by
  induction h with
  | start => exact wf_start
  | step t v _ ih => exact wf_step t v ih

/-- In a well-formed table the empty string is found at slot 0 and the table
is unchanged. -/
lemma StringTable.get_index_empty (t : StringTable) (h : t.WF) :
    t.get_index "" = (t, 0) := by
  obtain ⟨-, hhead, -⟩ := h
  cases hv : t.values with
  | nil => rw [hv] at hhead; exact absurd hhead (by simp)
  | cons w ws =>
      rw [hv] at hhead
      simp only [List.head?_cons, Option.some.injEq] at hhead
      unfold StringTable.get_index
      rw [hv, hhead]
      simp

/-- Interning the same value twice: the second call returns the same index
and leaves the table untouched. -/
lemma StringTable.get_index_idem (t : StringTable) (v : String) (h : t.WF) :
    (t.get_index v).1.get_index v = ((t.get_index v).1, (t.get_index v).2) := by
  obtain ⟨hlen, -, -⟩ := h
  unfold StringTable.get_index
  match hidx : t.values.findIdx? (fun w => w == v) with
  | some i => simp [hidx]
  | none =>
      simp only [hidx]
      have happ : (t.values ++ [v]).findIdx? (fun w => w == v) = some t.values.length := by
        rw [List.findIdx?_append, hidx]
        simp
      simp [happ, hlen]

/-- **C5.** Interning a value twice returns the same index both times and the
second interning does not grow the table; interning the empty string returns
the pre-seeded index 0 and leaves the table unchanged; and the identifiers
(keys) of the table remain pairwise distinct after any sequence of interning
operations (`Reachable`). -/
theorem C5_string_interning_idempotent (t : StringTable) (v : String)
    (ht : t.Reachable) :
    ((t.get_index v).1.get_index v).2 = (t.get_index v).2 ∧
    ((t.get_index v).1.get_index v).1 = (t.get_index v).1 ∧
    t.get_index "" = (t, 0) ∧
    t.keys.Nodup ∧ (t.get_index v).1.keys.Nodup := by
  have hwf := StringTable.wf_of_reachable ht
  have hidem := StringTable.get_index_idem t v hwf
  exact ⟨by rw [hidem], by rw [hidem], StringTable.get_index_empty t hwf,
    hwf.2.2, (StringTable.wf_step t v hwf).2.2⟩

/-- Witness for C5 at the pre-seeded table and the value `"a"`. -/
theorem C5_string_interning_idempotent_witness :
    StringTable.Reachable StringTable.start ∧
    (((StringTable.start.get_index "a").1.get_index "a").2 =
        (StringTable.start.get_index "a").2 ∧
      ((StringTable.start.get_index "a").1.get_index "a").1 =
        (StringTable.start.get_index "a").1 ∧
      StringTable.start.get_index "" = (StringTable.start, 0) ∧
      StringTable.start.keys.Nodup ∧
      (StringTable.start.get_index "a").1.keys.Nodup) :=
  ⟨StringTable.Reachable.start,
    C5_string_interning_idempotent StringTable.start "a" StringTable.Reachable.start⟩

/-! ## JSON values (the Python values held in schema `fields` dicts)

Python floats are idealised as exact rationals; Python `bool` is a subtype of
`int` and participates in numeric comparison and equality with value 0/1. -/

inductive JVal where
  | jstr (s : String)
  | jint (n : Int)
  | jnum (q : Rat)
  | jbool (b : Bool)
  | jarr (xs : List JVal)
  deriving Repr

/-- Python truthiness of a schema value. -/
def JVal.truthy : JVal → Bool
  | .jstr s => s ≠ ""
  | .jint n => n ≠ 0
  | .jnum q => q ≠ 0
  | .jbool b => b
  | .jarr xs => !xs.isEmpty

/-- Numeric view of a value, for Python's cross-type numeric comparison and
equality (`True == 1`, `1 == 1.0`). -/
def JVal.toRat : JVal → Option Rat
  | .jint n => some (n : Rat)
  | .jnum q => some q
  | .jbool b => some (if b then 1 else 0)
  | _ => none

/-- Integer view: what Python would use as an `int`-context operand.
An integral float behaves as its value; a non-integral float has no faithful
`Int` image and is mapped to failure here (the enclosing callers only reach
that corner through schemas the validator would reject). -/
def JVal.toInt : JVal → Option Int
  | .jint n => some n
  | .jbool b => some (if b then 1 else 0)
  | .jnum q => if q.den = 1 then some q.num else none
  | _ => none

mutual
/-- Python `==` on schema values: numeric cross-type equality, structural on
strings and lists, `False` across kinds. -/
def JVal.eqv : JVal → JVal → Bool
  | a, b =>
    match a.toRat, b.toRat with
    | some x, some y => x == y
    | _, _ =>
      match a, b with
      | .jstr s, .jstr u => s == u
      | .jarr xs, .jarr ys => JVal.eqvList xs ys
      | _, _ => false

def JVal.eqvList : List JVal → List JVal → Bool
  | [], [] => true
  | x :: xs, y :: ys => x.eqv y && JVal.eqvList xs ys
  | _, _ => false
end

/-- Exceptions raised during model construction.  Python raises `ValueError`
with a formatted message; the embedding separates the range-check `ValueError`
of `Range.check` (lines 88-95), the dict-lookup `KeyError` and the
comparison `TypeError` into their own constructors, and abbreviates message
texts. -/
inductive PErr where
  | valueError (msg : String)
  | rangeViolation (value : JVal) (minimum maximum : Rat)
  | keyError (key : String)
  | typeErr (msg : String)
  deriving Repr

mutual
/-- `Range.check` (lines 88-95): recurse into lists, otherwise compare
numerically; non-numeric operands raise Python `TypeError`. -/
def rangeCheck (minimum maximum : Rat) : JVal → Except PErr Unit
  | .jarr xs => rangeCheckList minimum maximum xs
  | v =>
    match v.toRat with
    | some x =>
        if minimum ≤ x ∧ x ≤ maximum then .ok ()
        else .error (.rangeViolation v minimum maximum)
    | none => .error (.typeErr "unorderable types in range comparison")

def rangeCheckList (minimum maximum : Rat) : List JVal → Except PErr Unit
  | [] => .ok ()
  | v :: vs => do
      rangeCheck minimum maximum v
      rangeCheckList minimum maximum vs
end

/-- The schema keys `Property.__init__` consumes from its `fields` dict. -/
structure Fields where
  type : Option String := none
  oneOf : Bool := false
  ctype : Option String := none
  default : Option JVal := none
  «alias» : Option JVal := none
  enum : Option (List JVal) := none
  store : Option JVal := none
  minimum : Option JVal := none
  maximum : Option JVal := none
  deriving Repr

/-- `get_ptype` (lines 130-137): `oneOf` present means the pseudo-type
`union`; otherwise a falsy `type` raises `ValueError`. -/
def get_ptype (fields : Fields) : Except PErr String :=
  if fields.oneOf then .ok "union"
  else
    match fields.type with
    | some t => if t = "" then .error (.valueError "\"type\" is required") else .ok t
    | none => .error (.valueError "\"type\" is required")

/-- Python `str.capitalize()`: first character upper-cased, rest lower-cased. -/
def pyCapitalize (s : String) : String :=
  match s.data with
  | [] => ""
  | c :: cs => String.mk (c.toUpper :: cs.map Char.toLower)

/-- Whether `self.enum` is truthy (a non-empty list). -/
def enumTruthy (enum : Option (List JVal)) : Bool :=
  match enum with
  | some (_ :: _) => true
  | _ => false

mutual
/-- `Property.validate_type` (lines 232-250) on a present value: recurse into
lists (unless the property type is `array`), accept anything when an enum is
present, otherwise check the value against the `types` table (Python's
`bool` is an `int`, so it passes the `integer` and `number` checks). -/
def validate_type_val (ptype : String) (enum_truthy : Bool) (attr : String) :
    JVal → Except PErr Unit
  | .jarr xs =>
      if ptype ≠ "array" then validate_type_list ptype enum_truthy attr xs
      else if enum_truthy then .ok ()
      else .ok ()
  | v =>
      if enum_truthy then .ok ()
      else
        match ptype with
        | "string" => match v with
            | .jstr _ => .ok ()
            | _ => .error (.valueError s!"Attribute \"{attr}\" must be an {ptype}")
        | "integer" => match v with
            | .jint _ => .ok ()
            | .jbool _ => .ok ()
            | _ => .error (.valueError s!"Attribute \"{attr}\" must be an {ptype}")
        | "boolean" => match v with
            | .jbool _ => .ok ()
            | _ => .error (.valueError s!"Attribute \"{attr}\" must be an {ptype}")
        | "number" => match v with
            | .jnum _ => .ok ()
            | .jint _ => .ok ()
            | .jbool _ => .ok ()
            | _ => .error (.valueError s!"Attribute \"{attr}\" must be an {ptype}")
        | "array" => .error (.valueError s!"Attribute \"{attr}\" must be an {ptype}")
        | other => .error (.keyError other)

def validate_type_list (ptype : String) (enum_truthy : Bool) (attr : String) :
    List JVal → Except PErr Unit
  | [] => .ok ()
  | v :: vs => do
      validate_type_val ptype enum_truthy attr v
      validate_type_list ptype enum_truthy attr vs
end

/-- `validate_type` on an optional field value (`None` passes, line 234). -/
def validate_type_opt (ptype : String) (enum_truthy : Bool) (attr : String) :
    Option JVal → Except PErr Unit
  | none => .ok ()
  | some v => validate_type_val ptype enum_truthy attr v

/-- `self.default or 0` (lines 187, 196): the declared default when truthy,
else the integer 0. -/
def checkedDefault (default : Option JVal) : JVal :=
  match default with
  | some v => if v.truthy then v else .jint 0
  | none => .jint 0

/-- A value used as an `int` operand (TypeError when unorderable). -/
def jvalToIntB (v : JVal) : Except PErr Int :=
  match v.toInt with
  | some n => .ok n
  | none => .error (.typeErr "unorderable types in int comparison")

/-- A value used as a numeric operand (TypeError when unorderable). -/
def jvalToRatB (v : JVal) : Except PErr Rat :=
  match v.toRat with
  | some q => .ok q
  | none => .error (.typeErr "unorderable types in numeric comparison")

/-- The integer branch of `Property.__init__` (lines 180-189): missing
bounds default to the `int32` limits, the width is deduced, and
`self.default or 0` is range-checked against the declared bounds. -/
def intStage (minval maxval default : Option JVal) : Except PErr IntRange := do
  let int32 : IntRange := ⟨0, 0, true, 32⟩
  let mn : Int ←
    match minval with
    | none => .ok int32.typemin
    | some v => jvalToIntB v
  let mx : Int ←
    match maxval with
    | none => .ok int32.typemax
    | some v => jvalToIntB v
  let r := IntRange.deduce mn mx
  rangeCheck (mn : Rat) (mx : Rat) (checkedDefault default)
  .ok r

/-- The number branch of `Property.__init__` (lines 190-196): missing bounds
default to `±1e100` and `self.default or 0` is range-checked. -/
def numStage (minval maxval default : Option JVal) : Except PErr (Rat × Rat) := do
  let mn : Rat ←
    match minval with
    | none => .ok NUMBER_MIN
    | some v => jvalToRatB v
  let mx : Rat ←
    match maxval with
    | none => .ok NUMBER_MAX
    | some v => jvalToRatB v
  rangeCheck mn mx (checkedDefault default)
  .ok (mn, mx)

/-- `min(self.enum), max(self.enum)` then `IntRange.deduce` and
`r.check(self.enum)` for an integer enum (lines 209-213). -/
def enumIntStage (es : List JVal) : Except PErr IntRange := do
  let ns ← es.foldrM (fun v acc => do
    let n ← jvalToIntB v
    pure (n :: acc)) ([] : List Int)
  match ns with
  | [] => .error (.valueError "min() arg is an empty sequence")
  | n :: rest =>
      let mn := rest.foldl min n
      let mx := rest.foldl max n
      let r := IntRange.deduce mn mx
      rangeCheck (mn : Rat) (mx : Rat) (.jarr es)
      .ok r

/-- The result of `Property.__init__`: the fields the constructor stores. -/
structure PropData where
  name : String
  ptype : String
  ctype : String
  property_type : String
  ctype_override : Option String
  default : Option JVal
  «alias» : Option JVal
  enum : Option (List JVal)
  enum_type : Option String
  enum_ctype : Option String
  intrange : Option IntRange
  numrange : Option (Rat × Rat)
  is_store : Bool
  deriving Repr

/-- `Property.__init__` (dbgen.py lines 156-230), for scalar property kinds.
Follows the source order: `get_ptype`, the `CPP_TYPENAMES` lookup (a
`KeyError` for unsupported types), `validate_type` of the declared bounds,
the integer/number range stages, the dead `if not self.ctype` guard, the
enum transformation, and the final `validate_type` of the stored default. -/
def propertyInit (key : String) (fields : Fields) : Except PErr PropData := do
  let ptype0 ← get_ptype fields
  let ctype_override := fields.ctype
  let default0 := fields.default
  let ctype0 ←
    match CPP_TYPENAMES.lookup ptype0 with
    | some c => .ok c
    | none => .error (.keyError ptype0)
  let property_type0 := pyCapitalize ptype0
  let al := fields.«alias»
  let en := fields.enum
  let is_store := fields.store.isSome
  let et := enumTruthy en
  validate_type_opt ptype0 et "minimum" fields.minimum
  validate_type_opt ptype0 et "maximum" fields.maximum
  let intrange0 : Option IntRange ←
    if ptype0 = "integer" then do
      let r ← intStage fields.minimum fields.maximum default0
      pure (some r)
    else pure none
  let numrange0 : Option (Rat × Rat) ←
    if ptype0 = "number" then do
      let nr ← numStage fields.minimum fields.maximum default0
      pure (some nr)
    else pure none
  let ctype1 := match intrange0 with | some r => r.ctype | none => ctype0
  let property_type1 := match intrange0 with | some r => r.property_type | none => property_type0
  if ctype1 = "" then
    .error (.valueError s!"Invalid property type \"{ptype0}\"")
  else
    match en with
    | some (e0 :: erest) => do
        let es := e0 :: erest
        if fields.minimum.isSome || fields.maximum.isSome then
          .error (.valueError "enum and minimum/maximum fields are mutually-exclusive")
        else do
          let (enum_ctype1, intrange1, numrange1) ←
            if ptype0 = "string" then
              .ok (ctype1, intrange0, numrange0)
            else if ptype0 = "integer" then do
              let r ← enumIntStage es
              .ok (r.ctype, some r, numrange0)
            else if ptype0 = "number" then do
              rangeCheck NUMBER_MIN NUMBER_MAX (.jarr es)
              .ok ("const_number_t", intrange0, some (NUMBER_MIN, NUMBER_MAX))
            else
              .error (.valueError s!"Unsupported enum type \"{ptype0}\"")
          let enum_type1 :=
            if ptype0 = "integer" then
              match intrange1 with | some r => r.property_type | none => property_type1
            else property_type1
          let default1 : Option JVal ←
            match default0 with
            | some d =>
                if d.truthy then
                  match es.findIdx? (fun e => e.eqv d) with
                  | some i => .ok (some (.jint (i : Int)))
                  | none => .error (.valueError "default not in enum")
                else .ok (some (.jint 0))
            | none => .ok (some (.jint 0))
          validate_type_opt "integer" true "default" default1
          .ok { name := key, ptype := "integer", ctype := "uint8_t",
                property_type := "Enum", ctype_override := ctype_override,
                default := default1, «alias» := al, enum := en,
                enum_type := some enum_type1, enum_ctype := some enum_ctype1,
                intrange := intrange1, numrange := numrange1, is_store := is_store }
    | _ => do
        validate_type_opt ptype0 et "default" default0
        .ok { name := key, ptype := ptype0, ctype := ctype1,
              property_type := property_type1, ctype_override := ctype_override,
              default := default0, «alias» := al, enum := en,
              enum_type := none, enum_ctype := none,
              intrange := intrange0, numrange := numrange0, is_store := is_store }

/-- `parse_properties` (lines 617-619) restricted to scalar-typed entries:
the loop body is `parse_property`, whose scalar branch (lines 695-706)
constructs a `Property` and appends it; an exception propagates out of the
loop — nothing catches it to skip the offending property. -/
def parse_properties_scalar : List (String × Fields) → Except PErr (List PropData)
  | [] => .ok []
  | (k, f) :: rest => do
      let p ← propertyInit k f
      let ps ← parse_properties_scalar rest
      .ok (p :: ps)

/-- A `string`-typed property with an enum list and an optional default. -/
def strEnumFields (es : List String) (d : Option String) : Fields :=
  { type := some "string", enum := some (es.map .jstr), default := d.map .jstr }

/-- An `integer`-typed property with optional bounds and default. -/
def intFields (mn mx d : Option Int) : Fields :=
  { type := some "integer", minimum := mn.map .jint, maximum := mx.map .jint,
    default := d.map .jint }

/-- A `number`-typed property with optional bounds and default. -/
def numFields (mn mx d : Option Rat) : Fields :=
  { type := some "number", minimum := mn.map .jnum, maximum := mx.map .jnum,
    default := d.map .jnum }

/-- The stored default of a successful construction (`none` on failure). -/
def resultDefault : Except PErr PropData → Option (Option JVal)
  | .ok p => some p.default
  | .error _ => none

def exceptOk : Except PErr PropData → Bool
  | .ok _ => true
  | .error _ => false

def isRangeViolation : Except PErr PropData → Bool
  | .error (.rangeViolation ..) => true
  | _ => false

lemma intRange_ctype_ne_empty (r : IntRange) : r.ctype ≠ "" := by
  unfold IntRange.ctype
  split <;> intro h <;> exact absurd (congrArg String.data h) (by simp [String.data_append])

lemma checkedDefault_jint (v : Int) : checkedDefault (some (.jint v)) = .jint v := by
  by_cases hv : v = 0 <;> simp [checkedDefault, JVal.truthy, hv]

lemma checkedDefault_none : checkedDefault none = .jint 0 := rfl

lemma rangeCheck_jint (lo hi : Rat) (v : Int) :
    rangeCheck lo hi (.jint v) =
      if lo ≤ (v : Rat) ∧ (v : Rat) ≤ hi then .ok ()
      else .error (.rangeViolation (.jint v) lo hi) := by
  simp [rangeCheck, JVal.toRat]

/-- The integer stage checks `self.default or 0` against the declared bounds
(with the int32 limits substituted for missing bounds). -/
lemma intStage_int (mn mx d : Option Int) :
    intStage (mn.map .jint) (mx.map .jint) (d.map .jint) =
      (if mn.getD (-(2 ^ 31)) ≤ d.getD 0 ∧ d.getD 0 ≤ mx.getD (2 ^ 31 - 1)
       then .ok (IntRange.deduce (mn.getD (-(2 ^ 31))) (mx.getD (2 ^ 31 - 1)))
       else .error (.rangeViolation (.jint (d.getD 0)) (mn.getD (-(2 ^ 31)))
         (mx.getD (2 ^ 31 - 1)))) := by
  cases mn <;> cases mx <;> cases d <;>
    simp only [Option.map, Option.getD, intStage, jvalToIntB, JVal.toInt,
      checkedDefault_jint, checkedDefault_none, bind, Except.bind,
      IntRange.typemin, IntRange.typemax, typemin, typemax, rangeCheck_jint] <;>
    split_ifs <;>
    first
      | rfl
      | (exfalso; norm_cast at *)

lemma validate_int_opt (attr : String) (o : Option Int) :
    validate_type_opt "integer" false attr (o.map .jint) = .ok () := by
  cases o <;> simp [validate_type_opt, validate_type_val, Option.map]

/-- Characterisation of `Property.__init__` on an integer property with
optional declared bounds and default: it succeeds exactly when the checked
value (`default or 0`) lies within the (possibly defaulted) bounds, and
otherwise raises the range-check `ValueError`. -/
lemma propertyInit_intFields (mn mx d : Option Int) :
    propertyInit "k" (intFields mn mx d) =
      (if mn.getD (-(2 ^ 31)) ≤ d.getD 0 ∧ d.getD 0 ≤ mx.getD (2 ^ 31 - 1)
       then .ok { name := "k", ptype := "integer",
                  ctype := (IntRange.deduce (mn.getD (-(2 ^ 31))) (mx.getD (2 ^ 31 - 1))).ctype,
                  property_type := (IntRange.deduce (mn.getD (-(2 ^ 31))) (mx.getD (2 ^ 31 - 1))).property_type,
                  ctype_override := none, default := d.map .jint, «alias» := none,
                  enum := none, enum_type := none, enum_ctype := none,
                  intrange := some (IntRange.deduce (mn.getD (-(2 ^ 31))) (mx.getD (2 ^ 31 - 1))),
                  numrange := none, is_store := false }
       else .error (.rangeViolation (.jint (d.getD 0)) (mn.getD (-(2 ^ 31)))
         (mx.getD (2 ^ 31 - 1)))) := by
  have hne := intRange_ctype_ne_empty (IntRange.deduce (mn.getD (-(2 ^ 31))) (mx.getD (2 ^ 31 - 1)))
  have h1 : get_ptype (intFields mn mx d) = .ok "integer" := rfl
  have h2 : CPP_TYPENAMES.lookup "integer" = some "int" := rfl
  have h3 : (intFields mn mx d).minimum = mn.map .jint := rfl
  have h4 : (intFields mn mx d).maximum = mx.map .jint := rfl
  have h5 : (intFields mn mx d).default = d.map .jint := rfl
  have h6 : (intFields mn mx d).enum = none := rfl
  have h7 : (intFields mn mx d).ctype = none := rfl
  have h8 : (intFields mn mx d).«alias» = none := rfl
  have h9 : (intFields mn mx d).store = none := rfl
  simp only [propertyInit, h1, h2, h3, h4, h5, h6, h7, h8, h9, enumTruthy,
    bind, Except.bind, pure, Except.pure, validate_int_opt, intStage_int,
    String.reduceEq, reduceIte, Option.isSome]
  split
  · rename_i e heq
    split at heq
    · exact absurd heq (by simp)
    · rename_i hcond
      rw [if_neg hcond]
      injection heq with he
      rw [he]
  · rename_i r heq
    split at heq
    · rename_i hcond
      injection heq with hr
      subst hr
      rw [if_pos hcond, if_neg hne]
    · exact absurd heq (by simp)

lemma rangeCheck_checkedNum (lo hi : Rat) (d : Option Rat) :
    rangeCheck lo hi (checkedDefault (d.map .jnum)) =
      (if lo ≤ d.getD 0 ∧ d.getD 0 ≤ hi then .ok ()
       else .error (.rangeViolation (checkedDefault (d.map .jnum)) lo hi)) := by
  cases d with
  | none => simp [checkedDefault, Option.map, rangeCheck, JVal.toRat]
  | some q =>
      by_cases hq : q = 0 <;>
        simp [checkedDefault, Option.map, JVal.truthy, rangeCheck, JVal.toRat, hq]

lemma numStage_num (mn mx d : Option Rat) :
    numStage (mn.map .jnum) (mx.map .jnum) (d.map .jnum) =
      (if mn.getD NUMBER_MIN ≤ d.getD 0 ∧ d.getD 0 ≤ mx.getD NUMBER_MAX
       then .ok (mn.getD NUMBER_MIN, mx.getD NUMBER_MAX)
       else .error (.rangeViolation (checkedDefault (d.map .jnum))
         (mn.getD NUMBER_MIN) (mx.getD NUMBER_MAX))) := by
  cases mn <;> cases mx <;>
    (simp only [numStage, jvalToRatB, JVal.toRat, bind, Except.bind,
       Option.map_none', Option.map_some', Option.getD_none, Option.getD_some]
     rw [rangeCheck_checkedNum]
     split
     · rename_i e heq
       split at heq
       · exact absurd heq (by simp)
       · rename_i hc
         rw [if_neg hc]
         injection heq with he
         rw [he]
     · rename_i v heq
       split at heq
       · rename_i hc
         rw [if_pos hc]
       · exact absurd heq (by simp))

lemma validate_num_opt (attr : String) (o : Option Rat) :
    validate_type_opt "number" false attr (o.map .jnum) = .ok () := by
  cases o <;> simp [validate_type_opt, validate_type_val, Option.map]

/-- Characterisation of `Property.__init__` on a number property. -/
lemma propertyInit_numFields (mn mx d : Option Rat) :
    propertyInit "k" (numFields mn mx d) =
      (if mn.getD NUMBER_MIN ≤ d.getD 0 ∧ d.getD 0 ≤ mx.getD NUMBER_MAX
       then .ok { name := "k", ptype := "number", ctype := "ConfigDB::Number",
                  property_type := "Number",
                  ctype_override := none, default := d.map .jnum, «alias» := none,
                  enum := none, enum_type := none, enum_ctype := none,
                  intrange := none,
                  numrange := some (mn.getD NUMBER_MIN, mx.getD NUMBER_MAX),
                  is_store := false }
       else .error (.rangeViolation (checkedDefault (d.map .jnum))
         (mn.getD NUMBER_MIN) (mx.getD NUMBER_MAX))) := by
  have h1 : get_ptype (numFields mn mx d) = .ok "number" := rfl
  have h2 : CPP_TYPENAMES.lookup "number" = some "ConfigDB::Number" := rfl
  have h3 : (numFields mn mx d).minimum = mn.map .jnum := rfl
  have h4 : (numFields mn mx d).maximum = mx.map .jnum := rfl
  have h5 : (numFields mn mx d).default = d.map .jnum := rfl
  have h6 : (numFields mn mx d).enum = none := rfl
  have h7 : (numFields mn mx d).ctype = none := rfl
  have h8 : (numFields mn mx d).«alias» = none := rfl
  have h9 : (numFields mn mx d).store = none := rfl
  have hcap : pyCapitalize "number" = "Number" := rfl
  simp only [propertyInit, h1, h2, h3, h4, h5, h6, h7, h8, h9, enumTruthy,
    bind, Except.bind, pure, Except.pure, validate_num_opt, numStage_num,
    String.reduceEq, reduceIte, Option.isSome, hcap]
  split
  · rename_i e heq
    split at heq
    · exact absurd heq (by simp)
    · rename_i hcond
      rw [if_neg hcond]
      injection heq with he
      rw [he]
  · rename_i r heq
    split at heq
    · rename_i hcond
      injection heq with hr
      subst hr
      rw [if_pos hcond]
    · exact absurd heq (by simp)

/-- **C6 (amended).** For a `string` property with `enum = [a, b, c]`: a
*truthy* declared default equal to `b` is stored as the ordinal 1; a truthy
declared default that is not a member of the enum fails construction; but a
*falsy* declared default (the empty string) is treated as absent and stored
as ordinal 0 without any membership check. -/
theorem C6_enum_default_ordinal (a b c : String) (hab : a ≠ b) :
    (b ≠ "" →
      resultDefault (propertyInit "k" (strEnumFields [a, b, c] (some b))) =
        some (some (.jint 1))) ∧
    (∀ d : String, d ≠ "" → d ≠ a → d ≠ b → d ≠ c →
      propertyInit "k" (strEnumFields [a, b, c] (some d)) =
        .error (.valueError "default not in enum")) ∧
    (resultDefault (propertyInit "k" (strEnumFields [a, b, c] (some ""))) =
      some (some (.jint 0))) := by
  refine ⟨fun hb => ?_, fun d hd0 hda hdb hdc => ?_, ?_⟩
  · simp [propertyInit, strEnumFields, get_ptype, enumTruthy, validate_type_opt,
      JVal.truthy, JVal.eqv, JVal.toRat, hb, hab, resultDefault, CPP_TYPENAMES,
      List.lookup, bind, Except.bind, pure, Except.pure, pyCapitalize,
      validate_type_val]
  · simp [propertyInit, strEnumFields, get_ptype, enumTruthy, validate_type_opt,
      JVal.truthy, JVal.eqv, JVal.toRat, resultDefault, CPP_TYPENAMES,
      List.lookup, bind, Except.bind, pure, Except.pure, pyCapitalize,
      validate_type_val, hd0, hda, hdb, hdc, Ne.symm hda, Ne.symm hdb, Ne.symm hdc]
  · simp [propertyInit, strEnumFields, get_ptype, enumTruthy, validate_type_opt,
      JVal.truthy, JVal.eqv, JVal.toRat, resultDefault, CPP_TYPENAMES,
      List.lookup, bind, Except.bind, pure, Except.pure, pyCapitalize,
      validate_type_val]

/-- Witness for C6 at `enum = ["a","b","c"]`, `default = "b"`. -/
theorem C6_enum_default_ordinal_witness :
    resultDefault (propertyInit "k" (strEnumFields ["a", "b", "c"] (some "b"))) =
      some (some (.jint 1)) :=
  (C6_enum_default_ordinal "a" "b" "c" (by decide)).1 (by decide)

/-- Counterexample to C6 as frozen: the declared default `""` is not a member
of the enum `["a","b","c"]` (no enum entry equals it under the code's `==`
test), yet construction succeeds and stores ordinal 0. -/
theorem C6_falsy_default_counterexample :
    resultDefault (propertyInit "k" (strEnumFields ["a", "b", "c"] (some ""))) =
      some (some (.jint 0)) ∧
    (["a", "b", "c"].map JVal.jstr).findIdx? (fun e => e.eqv (.jstr "")) = none :=
  ⟨rfl, rfl⟩

/-- **C7 (amended).** For an integer or number property, model construction
fails with a range violation iff the *checked value* — the declared default
when truthy, else 0 — lies outside the declared/derived `[minimum, maximum]`
range; equivalently, construction succeeds iff that value is in range.  (In
particular a property with no default still fails when 0 is out of range.) -/
theorem C7_range_violation_iff :
    (∀ mn mx d : Option Int,
      (exceptOk (propertyInit "k" (intFields mn mx d)) = true ↔
        (mn.getD (-(2 ^ 31)) ≤ d.getD 0 ∧ d.getD 0 ≤ mx.getD (2 ^ 31 - 1))) ∧
      (isRangeViolation (propertyInit "k" (intFields mn mx d)) = true ↔
        ¬ (mn.getD (-(2 ^ 31)) ≤ d.getD 0 ∧ d.getD 0 ≤ mx.getD (2 ^ 31 - 1)))) ∧
    (∀ mn mx d : Option Rat,
      (exceptOk (propertyInit "k" (numFields mn mx d)) = true ↔
        (mn.getD NUMBER_MIN ≤ d.getD 0 ∧ d.getD 0 ≤ mx.getD NUMBER_MAX)) ∧
      (isRangeViolation (propertyInit "k" (numFields mn mx d)) = true ↔
        ¬ (mn.getD NUMBER_MIN ≤ d.getD 0 ∧ d.getD 0 ≤ mx.getD NUMBER_MAX))) := by
  constructor
  · intro mn mx d
    rw [propertyInit_intFields]
    split_ifs with h
    · exact ⟨iff_of_true rfl h,
        iff_of_false (by simp [isRangeViolation]) (not_not_intro h)⟩
    · exact ⟨iff_of_false (by simp [exceptOk]) h, iff_of_true rfl h⟩
  · intro mn mx d
    rw [propertyInit_numFields]
    split_ifs with h
    · exact ⟨iff_of_true rfl h,
        iff_of_false (by simp [isRangeViolation]) (not_not_intro h)⟩
    · exact ⟨iff_of_false (by simp [exceptOk]) h, iff_of_true rfl h⟩

/-- Counterexample to C7 as frozen: an integer property with
`minimum = 5`, `maximum = 10` and *no declared default* still fails the
range check (the code checks `self.default or 0`, i.e. 0, against the
range), contradicting "construction of such a property that declares no
default never fails the range check". -/
theorem C7_no_default_counterexample :
    propertyInit "k" (intFields (some 5) (some 10) none) =
      .error (.rangeViolation (.jint 0) 5 10) ∧
    (intFields (some 5) (some 10) none).default = none :=
  ⟨rfl, rfl⟩

/-- **C8 (amended).** A property declaring a `type` the compiler does not
support raises an uncaught `KeyError` at the `CPP_TYPENAMES` lookup; the
error aborts the whole property walk (no skipping, no degraded output), no
matter what well-formed properties follow. -/
theorem C8_unsupported_type_aborts (key t : String) (fields : Fields)
    (rest : List (String × Fields))
    (htype : fields.type = some t) (ht0 : t ≠ "") (hone : fields.oneOf = false)
    (hunsup : CPP_TYPENAMES.lookup t = none) :
    parse_properties_scalar ((key, fields) :: rest) = .error (.keyError t) := by
  simp [parse_properties_scalar, propertyInit, get_ptype, htype, ht0, hone,
    hunsup, bind, Except.bind]

/-- Witness for C8 at a property of type `"blob"`. -/
theorem C8_unsupported_type_aborts_witness :
    parse_properties_scalar [("x", { type := some "blob" })] =
      .error (.keyError "blob") :=
  C8_unsupported_type_aborts "x" "blob" { type := some "blob" } [] rfl
    (by decide) rfl rfl

/-- Counterexample to C8 as frozen: with an unsupported-type property
followed by a perfectly valid integer property, the run errors out — the
offending property is not skipped and the remaining schema is never
processed into (degraded) output. -/
theorem C8_no_skip_counterexample :
    parse_properties_scalar
      [("bad", { type := some "foo" }), ("good", { type := some "integer" })] =
      .error (.keyError "foo") := rfl

/-! ## Node layout (dbgen.py lines 350-492 and 1061-1085)

A container node is modelled by its kind, its child container nodes
(`object_properties`, in construction order) and the data sizes of its
scalar properties (`properties`; a scalar's `data_size` is the fixed
`CPP_TYPESIZES[ctype]` entry, so scalars are represented by their sizes). -/

inductive Obj where
  | node (children : List Obj) (propSizes : List Nat)
  | arr (children : List Obj) (propSizes : List Nat)
  | uni (children : List Obj) (propSizes : List Nat)

def Obj.children : Obj → List Obj
  | .node cs _ | .arr cs _ | .uni cs _ => cs

def Obj.propSizes : Obj → List Nat
  | .node _ ps | .arr _ ps | .uni _ ps => ps

/-- `Object.is_union` (lines 419-421, 477-479). -/
def Obj.is_union : Obj → Bool
  | .uni _ _ => true
  | _ => false

/-- Python `max` over a list of sizes (`Union.max_object_size` /
`max_property_size`, lines 481-487; raises on an empty sequence, so callers
are only meaningful for non-empty lists). -/
def maxList (l : List Nat) : Nat := l.foldr max 0

mutual
/-- `data_size` (lines 394-397, 469-472, 489-492): an `Object` is the sum of
its children's and properties' sizes, an `Array`/`ObjectArray` stores a
fixed array-id, and a `Union` is the max of its variants plus the max of its
properties (the synthesized tag). -/
def Obj.data_size : Obj → Nat
  | .node cs ps => sumSizes cs + ps.sum
  | .arr _ _ => ARRAY_ID_SIZE
  | .uni cs ps => maxSizes cs + maxList ps

def sumSizes : List Obj → Nat
  | [] => 0
  | c :: cs => c.data_size + sumSizes cs

def maxSizes : List Obj → Nat
  | [] => 0
  | c :: cs => max c.data_size (maxSizes cs)
end

/-- The child-offset loop of `generate_typeinfo` (lines 1061-1072): each
child is recorded at the running offset; a non-union bumps the offset by the
child's size, a union leaves every variant at the same offset.  Returns the
recorded offsets and the final offset. -/
def objOffsetsAcc (isUnion : Bool) : List Obj → Nat → List Nat × Nat
  | [], off => ([], off)
  | c :: cs, off =>
      let rest := objOffsetsAcc isUnion cs (if isUnion then off else off + c.data_size)
      (off :: rest.1, rest.2)

/-- The property-offset loop (lines 1077-1085): offsets accumulate
unconditionally over property sizes. -/
def propOffsetsAcc : List Nat → Nat → List Nat
  | [], _ => []
  | s :: ss, off => off :: propOffsetsAcc ss (off + s)

/-- The offsets emitted by `generate_typeinfo` for one node: the child
offsets, then (after `offset += max_object_size` for a union, lines
1074-1075) the property offsets. -/
def typeinfoOffsets (o : Obj) : List Nat × List Nat :=
  let r := objOffsetsAcc o.is_union o.children 0
  let off2 := if o.is_union then r.2 + maxSizes o.children else r.2
  (r.1, propOffsetsAcc o.propSizes off2)

lemma sumSizes_eq (cs : List Obj) : sumSizes cs = (cs.map Obj.data_size).sum := by
  induction cs with
  | nil => rfl
  | cons c cs ih => simp [sumSizes, ih]

lemma objOffsetsAcc_false (cs : List Obj) (off : Nat) :
    objOffsetsAcc false cs off =
      (propOffsetsAcc (cs.map Obj.data_size) off, off + sumSizes cs) := by
  induction cs generalizing off with
  | nil => simp [objOffsetsAcc, propOffsetsAcc, sumSizes]
  | cons c cs ih =>
      simp only [objOffsetsAcc, propOffsetsAcc, List.map_cons, ih, sumSizes,
        Bool.false_eq_true, if_false]
      rw [Prod.mk.injEq]
      exact ⟨rfl, by omega⟩

lemma objOffsetsAcc_true (cs : List Obj) (off : Nat) :
    objOffsetsAcc true cs off = (List.replicate cs.length off, off) := by
  induction cs generalizing off with
  | nil => simp [objOffsetsAcc]
  | cons c cs ih => simp [objOffsetsAcc, ih, List.replicate]

lemma propOffsetsAcc_append (l1 l2 : List Nat) (off : Nat) :
    propOffsetsAcc (l1 ++ l2) off =
      propOffsetsAcc l1 off ++ propOffsetsAcc l2 (off + l1.sum) := by
  induction l1 generalizing off with
  | nil => simp [propOffsetsAcc]
  | cons s ss ih =>
      simp only [List.cons_append, propOffsetsAcc, List.append_eq, ih, List.sum_cons]
      have hx : off + s + ss.sum = off + (s + ss.sum) := by omega
      rw [hx]

lemma propOffsetsAcc_length (ss : List Nat) (off : Nat) :
    (propOffsetsAcc ss off).length = ss.length := by
  induction ss generalizing off with
  | nil => rfl
  | cons s ss ih => simp [propOffsetsAcc, ih]

lemma propOffsetsAcc_head (s : Nat) (ss : List Nat) (off : Nat) :
    (propOffsetsAcc (s :: ss) off).head? = some off := rfl

lemma propOffsetsAcc_succ (ss : List Nat) (off : Nat) :
    ∀ i, i + 1 < ss.length →
      (propOffsetsAcc ss off)[i + 1]? =
        some (((propOffsetsAcc ss off)[i]?).getD 0 + (ss[i]?).getD 0) := by
  induction ss generalizing off with
  | nil => intro i hi; simp at hi
  | cons s ss ih =>
      intro i hi
      match i with
      | 0 =>
          match ss, hi with
          | s' :: ss', _ => simp [propOffsetsAcc]
      | i + 1 =>
          have := ih (off + s) i (by simpa using hi)
          simpa [propOffsetsAcc] using this

lemma propOffsetsAcc_last (ss : List Nat) (off : Nat) (h : ss ≠ []) :
    off + ss.sum =
      ((propOffsetsAcc ss off).getLast?).getD 0 + (ss.getLast?).getD 0 := by
  induction ss generalizing off with
  | nil => exact absurd rfl h
  | cons s ss ih =>
      cases ss with
      | nil => simp [propOffsetsAcc]
      | cons s' ss' =>
          have hih := ih (off + s) (by simp)
          have h1 : (propOffsetsAcc (s :: s' :: ss') off).getLast? =
              (propOffsetsAcc (s' :: ss') (off + s)).getLast? := by
            simp only [propOffsetsAcc]
            rw [List.getLast?_cons_cons]
          have h2 : (s :: s' :: ss').getLast? = (s' :: ss').getLast? :=
            List.getLast?_cons_cons
          rw [List.sum_cons, h1, h2, ← Nat.add_assoc]
          exact hih

/-- The full emitted offset sequence of a non-union object equals one
accumulating pass over the concatenated child/property sizes. -/
lemma typeinfoOffsets_node (cs : List Obj) (ps : List Nat) :
    (typeinfoOffsets (Obj.node cs ps)).1 ++ (typeinfoOffsets (Obj.node cs ps)).2 =
      propOffsetsAcc (cs.map Obj.data_size ++ ps) 0 := by
  simp only [typeinfoOffsets, Obj.is_union, Obj.children, Obj.propSizes,
    objOffsetsAcc_false, propOffsetsAcc_append, if_neg Bool.false_ne_true,
    sumSizes_eq]

/-- **C3.** For a non-union, non-array `Object`, over the concatenated
sequence of child objects (construction order) then scalar properties, the
emitted offsets start at 0 and each successive offset is the previous offset
plus the previous element's `data_size`; and `data_size(object)` is the sum
of all children's and properties' sizes, which equals the last offset plus
the last size when the sequence is non-empty. -/
theorem C3_layout_additivity (cs : List Obj) (ps : List Nat) :
    ((typeinfoOffsets (Obj.node cs ps)).1 ++ (typeinfoOffsets (Obj.node cs ps)).2).length =
      (cs.map Obj.data_size ++ ps).length ∧
    (cs.map Obj.data_size ++ ps ≠ [] →
      ((typeinfoOffsets (Obj.node cs ps)).1 ++
        (typeinfoOffsets (Obj.node cs ps)).2).head? = some 0) ∧
    (∀ i, i + 1 < (cs.map Obj.data_size ++ ps).length →
      ((typeinfoOffsets (Obj.node cs ps)).1 ++ (typeinfoOffsets (Obj.node cs ps)).2)[i + 1]? =
        some ((((typeinfoOffsets (Obj.node cs ps)).1 ++
            (typeinfoOffsets (Obj.node cs ps)).2)[i]?).getD 0 +
          ((cs.map Obj.data_size ++ ps)[i]?).getD 0)) ∧
    (Obj.node cs ps).data_size = (cs.map Obj.data_size ++ ps).sum ∧
    (cs.map Obj.data_size ++ ps ≠ [] →
      (Obj.node cs ps).data_size =
        ((((typeinfoOffsets (Obj.node cs ps)).1 ++
            (typeinfoOffsets (Obj.node cs ps)).2).getLast?).getD 0 +
          (((cs.map Obj.data_size ++ ps).getLast?).getD 0))) := by
  rw [typeinfoOffsets_node]
  have hsize : (Obj.node cs ps).data_size = (cs.map Obj.data_size ++ ps).sum := by
    show sumSizes cs + ps.sum = _
    rw [sumSizes_eq, List.sum_append]
  refine ⟨propOffsetsAcc_length _ 0, ?_, propOffsetsAcc_succ _ 0, hsize, ?_⟩
  · intro hne
    match hs : cs.map Obj.data_size ++ ps, hne with
    | s :: ss, _ => rfl
  · intro hne
    rw [hsize]
    have := propOffsetsAcc_last (cs.map Obj.data_size ++ ps) 0 hne
    omega

/-- Witness for C3 at a node with one array child (size 2) and one scalar
property of size 2: the second emitted offset is the first plus 2. -/
theorem C3_layout_additivity_witness :
    0 + 1 < ((([Obj.arr [] []].map Obj.data_size) ++ [2]).length) ∧
    ((typeinfoOffsets (Obj.node [Obj.arr [] []] [2])).1 ++
        (typeinfoOffsets (Obj.node [Obj.arr [] []] [2])).2)[0 + 1]? =
      some ((((typeinfoOffsets (Obj.node [Obj.arr [] []] [2])).1 ++
          (typeinfoOffsets (Obj.node [Obj.arr [] []] [2])).2)[0]?).getD 0 +
        ((([Obj.arr [] []].map Obj.data_size) ++ [2])[0]?).getD 0) :=
  ⟨by decide, (C3_layout_additivity [Obj.arr [] []] [2]).2.2.1 0 (by decide)⟩

/-- The storage size of the tag property synthesized for a union of `n`
variants (`parse_property` lines 750-755): an integer property with
`minimum = 0`, `maximum = n - 1`, whose size is the `CPP_TYPESIZES` entry of
the deduced storage type. -/
def unionTagSize (n : Nat) : Option Nat :=
  CPP_TYPESIZES.lookup (IntRange.deduce 0 ((n : Int) - 1)).ctype

/-- **C4.** For every union of 1 to 256 variants, the synthesized tag is one
byte; `data_size(union) = max(variant sizes) + tag size`; every variant is
emitted at offset 0; and the tag property sits at offset
`max(variant sizes)` — the end of the union's span. -/
theorem C4_union_sizing (cs : List Obj) (_h1 : cs ≠ []) (h256 : cs.length ≤ 256) :
    unionTagSize cs.length = some 1 ∧
    (Obj.uni cs [1]).data_size = maxSizes cs + 1 ∧
    (typeinfoOffsets (Obj.uni cs [1])).1 = List.replicate cs.length 0 ∧
    (typeinfoOffsets (Obj.uni cs [1])).2 = [maxSizes cs] := by
  have hc : ¬ deduceCond 0 ((cs.length : Int) - 1) 8 := by
    unfold deduceCond
    rw [typemin_of_nonneg (by norm_num), typemax_of_nonneg (by norm_num)]
    push_neg
    refine ⟨by norm_num, ?_⟩
    have hlen : (cs.length : Int) ≤ 256 := by exact_mod_cast h256
    norm_num
    omega
  have hbits : (IntRange.deduce 0 ((cs.length : Int) - 1)).bits = 8 := by
    show deduceBits 0 ((cs.length : Int) - 1) 8 = 8
    exact deduceBits_stop _ _ 8 (by norm_num) hc
  have hct : (IntRange.deduce 0 ((cs.length : Int) - 1)).ctype = "uint8_t" := by
    unfold IntRange.ctype
    rw [hbits]
    rfl
  refine ⟨?_, rfl, ?_, ?_⟩
  · unfold unionTagSize
    rw [hct]
    rfl
  · simp [typeinfoOffsets, Obj.is_union, Obj.children, Obj.propSizes,
      objOffsetsAcc_true]
  · simp [typeinfoOffsets, Obj.is_union, Obj.children, Obj.propSizes,
      objOffsetsAcc_true, propOffsetsAcc]

/-- Witness for C4: a union of two object variants, each holding a single
string property (string-id size 2) — the spec's union scenario: size
`2 + 1`, variants at offset 0, tag at offset 2. -/
theorem C4_union_sizing_witness :
    unionTagSize ([Obj.node [] [2], Obj.node [] [2]].length) = some 1 ∧
    (Obj.uni [Obj.node [] [2], Obj.node [] [2]] [1]).data_size =
      maxSizes [Obj.node [] [2], Obj.node [] [2]] + 1 ∧
    (typeinfoOffsets (Obj.uni [Obj.node [] [2], Obj.node [] [2]] [1])).1 =
      List.replicate ([Obj.node [] [2], Obj.node [] [2]].length) 0 ∧
    (typeinfoOffsets (Obj.uni [Obj.node [] [2], Obj.node [] [2]] [1])).2 =
      [maxSizes [Obj.node [] [2], Obj.node [] [2]]] :=
  C4_union_sizing [Obj.node [] [2], Obj.node [] [2]] (by simp) (by simp)

/-! ## Reference resolution and node deduplication (dbgen.py lines 622-760)

The `$ref` machinery is modelled over a flat table of definitions
(reference path ↦ schema fragment).  A fragment is an object (with named
sub-properties), a scalar, or itself a reference (a chained ref).  Parsed
object nodes are identified by creation order (an arena id); the source's
`fields['object'] = obj` annotation on the terminal schema node (line 717)
becomes a `registered` entry keyed by the terminal reference path, and the
`ref_node.get('object')` check of line 681 becomes a `registered` lookup.
Path-segment walking inside a document, external documents, store
annotations, arrays/unions and the scalar template merge are outside the
scope of claims C1/C9 and are not modelled. -/

inductive Fragment where
  | scalar (ptype : String)
  | obj (props : List (String × Fragment))
  | ref (target : String)

abbrev Defs := List (String × Fragment)

structure RefState where
  registered : List (String × Nat)
  nextId : Nat
  deriving Repr

inductive RefErr where
  | missing (name : String)
  | fuelOut
  deriving Repr, DecidableEq

inductive Resolved where
  | builtObject (path : String) (id : Nat)
  | terminal (path : String) (frag : Fragment)

/-- The `while object_ref:` chain-following loop (lines 657-689): resolve
the reference, return the already-built object if the node carries one
(line 681), follow a chained `$ref` (line 686), else stop at the terminal
fragment.  `fuel` bounds the number of iterations; the source loop has no
such bound and no cycle detection. -/
def followRefChain (defs : Defs) (registered : List (String × Nat)) :
    String → Nat → Except RefErr Resolved
  | _, 0 => .error .fuelOut
  | r, fuel + 1 =>
    match defs.lookup r with
    | none => .error (.missing r)
    | some frag =>
      match registered.lookup r with
      | some id => .ok (.builtObject r id)
      | none =>
        match frag with
        | .ref next => followRefChain defs registered next fuel
        | _ => .ok (.terminal r frag)

/-- The pure reference chain: the path a `$ref` chain reaches, ignoring any
built-object annotations.  This is the "reference path" a property's `$ref`
resolves to. -/
def chainPath (defs : Defs) : String → Nat → Option String
  | _, 0 => none
  | r, fuel + 1 =>
    match defs.lookup r with
    | none => none
    | some (.ref next) => chainPath defs next fuel
    | some _ => some r

/-- A cyclic `$ref` chain: `a -> b -> a`. -/
def cyclicDefs : Defs := [("a", .ref "b"), ("b", .ref "a")]

lemma cyclic_followRefChain (fuel : Nat) :
    followRefChain cyclicDefs [] "a" fuel = .error .fuelOut ∧
    followRefChain cyclicDefs [] "b" fuel = .error .fuelOut := by
  induction fuel with
  | zero => exact ⟨rfl, rfl⟩
  | succ fuel ih => exact ⟨ih.2, ih.1⟩

/-- **C9.** The reference resolver does *not* terminate on every input: on
the cyclic chain `a -> b -> a` the transitive-follow loop of
`parse_property` never reaches a terminal fragment, a missing-reference
error, or a built object — it exhausts every finite iteration bound, i.e.
the unbounded source loop runs forever instead of detecting the cycle and
failing. -/
theorem C9_cyclic_ref_chain_diverges :
    ∀ fuel : Nat, followRefChain cyclicDefs [] "a" fuel = .error .fuelOut :=
  fun fuel => (cyclic_followRefChain fuel).1

mutual
/-- `parse_property` for a `$ref` property (lines 656-724, object-kind
fragments): follow the chain; a node already carrying a built object is
reused as-is without reprocessing (lines 681-684); otherwise allocate the
node, register it on the terminal schema node (lines 711-717) and walk its
properties (line 724).  A scalar terminal creates a plain property, no
object.  (The `.ref` terminal case cannot be produced by `followRefChain`.) -/
def parseRefObject (defs : Defs) (st : RefState) (r : String) :
    Nat → Except RefErr (Option Nat × RefState)
  | 0 => .error .fuelOut
  | fuel + 1 =>
    match followRefChain defs st.registered r (fuel + 1) with
    | .error e => .error e
    | .ok (.builtObject _ id) => .ok (some id, st)
    | .ok (.terminal p frag) =>
      match frag with
      | .scalar _ => .ok (none, st)
      | .ref _ => .error .fuelOut
      | .obj props =>
        match parsePropList defs ⟨(p, st.nextId) :: st.registered, st.nextId + 1⟩ props fuel with
        | .error e => .error e
        | .ok st2 => .ok (some st.nextId, st2)

/-- `parse_properties` (lines 617-619) over an object's sub-properties:
a scalar adds no node, a `$ref` goes through `parseRefObject`, and an inline
object allocates a fresh node (never registered, since nothing can reference
it) and walks its own properties. -/
def parsePropList (defs : Defs) (st : RefState) :
    List (String × Fragment) → Nat → Except RefErr RefState
  | [], _ => .ok st
  | _ :: _, 0 => .error .fuelOut
  | (_, .scalar _) :: rest, fuel + 1 => parsePropList defs st rest fuel
  | (_, .ref r) :: rest, fuel + 1 =>
    match parseRefObject defs st r fuel with
    | .error e => .error e
    | .ok x => parsePropList defs x.2 rest fuel
  | (_, .obj props) :: rest, fuel + 1 =>
    match parsePropList defs ⟨st.registered, st.nextId + 1⟩ props fuel with
    | .error e => .error e
    | .ok stm => parsePropList defs stm rest fuel
end

/-- Well-formedness of the built-object registry: keys are distinct and
every registered path names an object fragment in the definition table. -/
def goodRegistered (defs : Defs) (reg : List (String × Nat)) : Prop :=
  (reg.map Prod.fst).Nodup ∧
  ∀ p id, (p, id) ∈ reg → ∃ props, defs.lookup p = some (.obj props)

def RefInv (defs : Defs) (st : RefState) : Prop :=
  goodRegistered defs st.registered

lemma mem_of_lookup_eq_some {l : List (String × Nat)} {k : String} {v : Nat}
    (h : l.lookup k = some v) : (k, v) ∈ l := by
  rw [List.lookup_eq_some_iff] at h
  obtain ⟨l1, l2, rfl, -⟩ := h
  simp

lemma lookup_of_mem_nodup {l : List (String × Nat)}
    (hn : (l.map Prod.fst).Nodup) {k : String} {v : Nat} (h : (k, v) ∈ l) :
    l.lookup k = some v := by
  induction l with
  | nil => simp at h
  | cons p t ih =>
      obtain ⟨a, b⟩ := p
      simp only [List.map_cons, List.nodup_cons] at hn
      rcases List.mem_cons.mp h with heq | hmem
      · obtain ⟨rfl, rfl⟩ := Prod.mk.inj heq
        exact List.lookup_cons_self
      · have hk : k ≠ a := by
          rintro rfl
          exact hn.1 (List.mem_map.mpr ⟨(k, v), hmem, rfl⟩)
        have hba : (k == a) = false := by simp [hk]
        simp only [List.lookup_cons, hba]
        exact ih hn.2 hmem

lemma key_not_mem_of_lookup_none {l : List (String × Nat)} {k : String}
    (h : l.lookup k = none) : k ∉ l.map Prod.fst := by
  rw [List.lookup_eq_none_iff] at h
  intro hk
  obtain ⟨p, hp, hfst⟩ := List.mem_map.mp hk
  have := h p hp
  simp [← hfst] at this

/-- Facts about a successful chain-follow: a built result was registered at
its path, a terminal result is an unregistered non-ref fragment of the
definition table. -/
lemma followRefChain_ok (defs : Defs) (reg : List (String × Nat)) :
    ∀ (fuel : Nat) (r : String) (res : Resolved),
      followRefChain defs reg r fuel = .ok res →
      (∀ p id, res = .builtObject p id → reg.lookup p = some id) ∧
      (∀ p frag, res = .terminal p frag →
        reg.lookup p = none ∧ defs.lookup p = some frag ∧
          ∀ t, frag ≠ .ref t) := by
  intro fuel
  induction fuel with
  | zero => intro r res h; exact absurd h (by simp [followRefChain])
  | succ fuel ih =>
      intro r res h
      unfold followRefChain at h
      match hdef : defs.lookup r with
      | none => rw [hdef] at h; exact absurd h (by simp)
      | some frag =>
          rw [hdef] at h
          match hreg : reg.lookup r with
          | some id =>
              rw [hreg] at h
              injection h with h
              subst h
              refine ⟨?_, by intro p f hcon; exact absurd hcon (by simp)⟩
              intro p i heq
              injection heq with hp hi
              subst hp; subst hi
              exact hreg
          | none =>
              rw [hreg] at h
              match frag with
              | .ref next => exact ih next res h
              | .scalar t =>
                  injection h with h
                  subst h
                  refine ⟨by intro p i hcon; exact absurd hcon (by simp), ?_⟩
                  intro p f heq
                  injection heq with hp hf
                  subst hp; subst hf
                  exact ⟨hreg, hdef, by intro t hcon; exact absurd hcon (by simp)⟩
              | .obj props =>
                  injection h with h
                  subst h
                  refine ⟨by intro p i hcon; exact absurd hcon (by simp), ?_⟩
                  intro p f heq
                  injection heq with hp hf
                  subst hp; subst hf
                  exact ⟨hreg, hdef, by intro t hcon; exact absurd hcon (by simp)⟩

def Resolved.path : Resolved → String
  | .builtObject p _ => p
  | .terminal p _ => p

/-- The pure reference chain is deterministic: any two sufficient fuels
agree on the terminal path. -/
lemma chainPath_det (defs : Defs) :
    ∀ (n1 : Nat) (r p1 p2 : String) (n2 : Nat),
      chainPath defs r n1 = some p1 → chainPath defs r n2 = some p2 → p1 = p2 := by
  intro n1
  induction n1 with
  | zero => intro r p1 p2 n2 h1; exact absurd h1 (by simp [chainPath])
  | succ n1 ih =>
      intro r p1 p2 n2 h1 h2
      match n2 with
      | 0 => exact absurd h2 (by simp [chainPath])
      | n2 + 1 =>
          unfold chainPath at h1 h2
          match hdef : defs.lookup r with
          | none => rw [hdef] at h1; exact absurd h1 (by simp)
          | some (.ref next) =>
              rw [hdef] at h1 h2
              exact ih next p1 p2 n2 h1 h2
          | some (.scalar t) =>
              rw [hdef] at h1 h2
              injection h1 with h1; injection h2 with h2
              rw [← h1, ← h2]
          | some (.obj props) =>
              rw [hdef] at h1 h2
              injection h1 with h1; injection h2 with h2
              rw [← h1, ← h2]

/-- A successful registered chain-follow reaches exactly the pure chain's
terminal path (intermediate ref nodes can never carry a built object, since
registered paths name object fragments). -/
lemma chainPath_of_follow (defs : Defs) (reg : List (String × Nat))
    (hreg : goodRegistered defs reg) :
    ∀ (fuel : Nat) (r : String) (res : Resolved),
      followRefChain defs reg r fuel = .ok res →
      chainPath defs r fuel = some res.path := by
  intro fuel
  induction fuel with
  | zero => intro r res h; exact absurd h (by simp [followRefChain])
  | succ fuel ih =>
      intro r res h
      unfold followRefChain at h
      unfold chainPath
      match hdef : defs.lookup r with
      | none => rw [hdef] at h; exact absurd h (by simp)
      | some frag =>
          rw [hdef] at h
          match hr : reg.lookup r with
          | some id =>
              rw [hr] at h
              injection h with h
              subst h
              obtain ⟨props, hp⟩ := hreg.2 r id (mem_of_lookup_eq_some hr)
              rw [hdef] at hp
              injection hp with hp
              subst hp
              rfl
          | none =>
              rw [hr] at h
              match frag with
              | .ref next => exact ih next res h
              | .scalar t =>
                  injection h with h
                  subst h
                  rfl
              | .obj props =>
                  injection h with h
                  subst h
                  rfl

/-- Conversely, when the pure chain reaches `p`, the registered follow either
returns the object already built at `p` or stops at `p`'s fragment. -/
lemma follow_of_chainPath (defs : Defs) (reg : List (String × Nat))
    (hreg : goodRegistered defs reg) :
    ∀ (fuel : Nat) (r p : String), chainPath defs r fuel = some p →
      (∀ id, reg.lookup p = some id →
        followRefChain defs reg r fuel = .ok (.builtObject p id)) ∧
      (reg.lookup p = none → ∀ frag, defs.lookup p = some frag →
        followRefChain defs reg r fuel = .ok (.terminal p frag)) := by
  intro fuel
  induction fuel with
  | zero => intro r p h; exact absurd h (by simp [chainPath])
  | succ fuel ih =>
      intro r p h
      unfold chainPath at h
      match hdef : defs.lookup r with
      | none => rw [hdef] at h; exact absurd h (by simp)
      | some (.ref next) =>
          rw [hdef] at h
          have hnr : reg.lookup r = none := by
            match hcon : reg.lookup r with
            | none => rfl
            | some id =>
                obtain ⟨props, hp⟩ := hreg.2 r id (mem_of_lookup_eq_some hcon)
                rw [hp] at hdef
                exact absurd hdef (by simp)
          constructor
          · intro id hid
            unfold followRefChain
            rw [hdef, hnr]
            exact (ih next p h).1 id hid
          · intro hnone frag hfrag
            unfold followRefChain
            rw [hdef, hnr]
            exact (ih next p h).2 hnone frag hfrag
      | some (.scalar t) =>
          rw [hdef] at h
          injection h with h
          subst h
          constructor
          · intro id hid
            unfold followRefChain
            rw [hdef, hid]
          · intro hnone frag hfrag
            unfold followRefChain
            rw [hdef, hnone]
            rw [hdef] at hfrag
            injection hfrag with hfrag
            subst hfrag
            rfl
      | some (.obj props) =>
          rw [hdef] at h
          injection h with h
          subst h
          constructor
          · intro id hid
            unfold followRefChain
            rw [hdef, hid]
          · intro hnone frag hfrag
            unfold followRefChain
            rw [hdef, hnone]
            rw [hdef] at hfrag
            injection hfrag with hfrag
            subst hfrag
            rfl

lemma parsePropList_cons_scalar (defs : Defs) (st : RefState) (nm t : String)
    (rest : List (String × Fragment)) (fuel : Nat) :
    parsePropList defs st ((nm, .scalar t) :: rest) (fuel + 1) =
      parsePropList defs st rest fuel := rfl

lemma parsePropList_cons_ref (defs : Defs) (st : RefState) (nm r : String)
    (rest : List (String × Fragment)) (fuel : Nat) :
    parsePropList defs st ((nm, .ref r) :: rest) (fuel + 1) =
      (match parseRefObject defs st r fuel with
       | .error e => .error e
       | .ok x => parsePropList defs x.2 rest fuel) := rfl

lemma parsePropList_cons_obj (defs : Defs) (st : RefState) (nm : String)
    (props rest : List (String × Fragment)) (fuel : Nat) :
    parsePropList defs st ((nm, .obj props) :: rest) (fuel + 1) =
      (match parsePropList defs ⟨st.registered, st.nextId + 1⟩ props fuel with
       | .error e => .error e
       | .ok stm => parsePropList defs stm rest fuel) := rfl

/-- Parsing only extends the registry (the old registry is a suffix of the
new one) and preserves its well-formedness. -/
lemma parse_preserves (defs : Defs) :
    ∀ (fuel : Nat),
      (∀ (st : RefState) (r : String) (oid : Option Nat) (st' : RefState),
        parseRefObject defs st r fuel = .ok (oid, st') → RefInv defs st →
        RefInv defs st' ∧ st.registered <:+ st'.registered) ∧
      (∀ (st : RefState) (l : List (String × Fragment)) (st' : RefState),
        parsePropList defs st l fuel = .ok st' → RefInv defs st →
        RefInv defs st' ∧ st.registered <:+ st'.registered) := by
  intro fuel
  induction fuel with
  | zero =>
      constructor
      · intro st r oid st' h
        exact absurd h (by simp [parseRefObject])
      · intro st l st' h hinv
        match l with
        | [] =>
            injection h with h
            subst h
            exact ⟨hinv, List.suffix_refl _⟩
        | x :: rest => exact absurd h (by simp [parsePropList])
  | succ fuel ih =>
      constructor
      · intro st r oid st' h hinv
        unfold parseRefObject at h
        match hf : followRefChain defs st.registered r (fuel + 1) with
        | .error e => rw [hf] at h; exact absurd h (by simp)
        | .ok (.builtObject q id) =>
            rw [hf] at h
            injection h with h
            obtain ⟨-, h2⟩ := Prod.mk.inj h
            subst h2
            exact ⟨hinv, List.suffix_refl _⟩
        | .ok (.terminal p frag) =>
            rw [hf] at h
            match frag with
            | .scalar t =>
                injection h with h
                obtain ⟨-, h2⟩ := Prod.mk.inj h
                subst h2
                exact ⟨hinv, List.suffix_refl _⟩
            | .ref t => exact absurd h (by simp)
            | .obj props =>
                have hterm := ((followRefChain_ok defs st.registered (fuel + 1) r _ hf).2
                  p (.obj props) rfl)
                obtain ⟨hnone, hdefp, -⟩ := hterm
                have hinv1 : RefInv defs ⟨(p, st.nextId) :: st.registered, st.nextId + 1⟩ := by
                  refine ⟨?_, ?_⟩
                  · simp only [List.map_cons, List.nodup_cons]
                    exact ⟨key_not_mem_of_lookup_none hnone, hinv.1⟩
                  · intro q id hq
                    rcases List.mem_cons.mp hq with heq | hmem
                    · obtain ⟨rfl, -⟩ := Prod.mk.inj heq
                      exact ⟨props, hdefp⟩
                    · exact hinv.2 q id hmem
                dsimp only at h
                cases hp : parsePropList defs ⟨(p, st.nextId) :: st.registered, st.nextId + 1⟩
                    props fuel with
                | error e => rw [hp] at h; exact absurd h (by simp)
                | ok st2 =>
                    rw [hp] at h
                    injection h with h
                    obtain ⟨-, h2⟩ := Prod.mk.inj h
                    subst h2
                    obtain ⟨hinv2, hsuf2⟩ := ih.2 _ props _ hp hinv1
                    refine ⟨hinv2, List.IsSuffix.trans ?_ hsuf2⟩
                    exact ⟨[(p, st.nextId)], rfl⟩
      · intro st l st' h hinv
        match l with
        | [] =>
            injection h with h
            subst h
            exact ⟨hinv, List.suffix_refl _⟩
        | (nm, frag) :: rest =>
            match frag with
            | .scalar t =>
                rw [parsePropList_cons_scalar] at h
                exact ih.2 st rest st' h hinv
            | .ref r =>
                rw [parsePropList_cons_ref] at h
                cases hro : parseRefObject defs st r fuel with
                | error e => rw [hro] at h; exact absurd h (by simp)
                | ok x =>
                    rw [hro] at h
                    obtain ⟨hinvm, hsufm⟩ := ih.1 st r x.1 x.2 (by rw [hro]) hinv
                    obtain ⟨hinv2, hsuf2⟩ := ih.2 x.2 rest st' h hinvm
                    exact ⟨hinv2, List.IsSuffix.trans hsufm hsuf2⟩
            | .obj props =>
                rw [parsePropList_cons_obj] at h
                cases hpp : parsePropList defs ⟨st.registered, st.nextId + 1⟩ props fuel with
                | error e => rw [hpp] at h; exact absurd h (by simp)
                | ok stm =>
                    rw [hpp] at h
                    obtain ⟨hinvm, hsufm⟩ := ih.2 ⟨st.registered, st.nextId + 1⟩ props stm hpp hinv
                    obtain ⟨hinv2, hsuf2⟩ := ih.2 stm rest st' h hinvm
                    exact ⟨hinv2, List.IsSuffix.trans hsufm hsuf2⟩

/-- A successful object-kind ref parse returns an object id that the final
state's registry holds at the chain's terminal path. -/
lemma parse_registers (defs : Defs) (st : RefState) (r p : String)
    (props : List (String × Fragment)) (n fuel : Nat)
    (oid : Option Nat) (st' : RefState)
    (hinv : RefInv defs st)
    (hch : chainPath defs r n = some p)
    (hobj : defs.lookup p = some (.obj props))
    (h : parseRefObject defs st r fuel = .ok (oid, st')) :
    ∃ i, oid = some i ∧ st'.registered.lookup p = some i ∧ RefInv defs st' := by
  obtain ⟨hinv', -⟩ := (parse_preserves defs fuel).1 st r oid st' h hinv
  match fuel with
  | 0 => exact absurd h (by simp [parseRefObject])
  | fuel + 1 =>
      unfold parseRefObject at h
      match hf : followRefChain defs st.registered r (fuel + 1) with
      | .error e => rw [hf] at h; exact absurd h (by simp)
      | .ok res =>
          have hcp := chainPath_of_follow defs st.registered hinv (fuel + 1) r res hf
          have hpath : res.path = p := chainPath_det defs (fuel + 1) r res.path p n hcp hch
          rw [hf] at h
          match res, hpath with
          | .builtObject q id, hpath =>
              have hq : q = p := hpath
              subst hq
              injection h with h
              obtain ⟨h1, h2⟩ := Prod.mk.inj h
              subst h2
              have hlq := (followRefChain_ok defs st.registered (fuel + 1) r _ hf).1 q id rfl
              exact ⟨id, h1.symm, hlq, hinv'⟩
          | .terminal q frag, hpath =>
              have hq : q = p := hpath
              subst hq
              obtain ⟨hnone, hdefq, -⟩ :=
                (followRefChain_ok defs st.registered (fuel + 1) r _ hf).2 q frag rfl
              rw [hobj] at hdefq
              injection hdefq with hdefq
              subst hdefq
              dsimp only at h
              cases hp : parsePropList defs ⟨(q, st.nextId) :: st.registered, st.nextId + 1⟩
                  props fuel with
              | error e => rw [hp] at h; exact absurd h (by simp)
              | ok st2 =>
                  rw [hp] at h
                  injection h with h
                  obtain ⟨h1, h2⟩ := Prod.mk.inj h
                  subst h2
                  have hinv1 : RefInv defs ⟨(q, st.nextId) :: st.registered, st.nextId + 1⟩ := by
                    refine ⟨?_, ?_⟩
                    · simp only [List.map_cons, List.nodup_cons]
                      exact ⟨key_not_mem_of_lookup_none hnone, hinv.1⟩
                    · intro q' id' hq'
                      rcases List.mem_cons.mp hq' with heq | hmem
                      · obtain ⟨rfl, -⟩ := Prod.mk.inj heq
                        exact ⟨props, hobj⟩
                      · exact hinv.2 q' id' hmem
                  obtain ⟨hinv2, hsuf2⟩ := (parse_preserves defs fuel).2 _ props _ hp hinv1
                  have hmem : (q, st.nextId) ∈ st2.registered :=
                    hsuf2.subset (by simp)
                  exact ⟨st.nextId, h1.symm, lookup_of_mem_nodup hinv2.1 hmem, hinv'⟩

/-- **C1.** Two properties whose `$ref` chains resolve to the same reference
path `p` of object kind receive the *same* node id: the first parse
registers the node at `p`, and the second parse finds the registered node
and returns it without touching the state (no re-walk of its properties,
no new node, no structurally-equal copy). -/
theorem C1_reference_identity (defs : Defs) (st st1 st2 : RefState)
    (r1 r2 p : String) (props : List (String × Fragment))
    (oid1 oid2 : Option Nat) (f1 f2 n1 n2 : Nat)
    (hinv : RefInv defs st)
    (h1 : chainPath defs r1 n1 = some p)
    (h2 : chainPath defs r2 n2 = some p)
    (hobj : defs.lookup p = some (.obj props))
    (hp1 : parseRefObject defs st r1 f1 = .ok (oid1, st1))
    (hp2 : parseRefObject defs st1 r2 f2 = .ok (oid2, st2)) :
    ∃ i, oid1 = some i ∧ oid2 = some i ∧ st2 = st1 := by
  obtain ⟨i, hoid1, hlook, hinv1⟩ :=
    parse_registers defs st r1 p props n1 f1 oid1 st1 hinv h1 hobj hp1
  match f2 with
  | 0 => exact absurd hp2 (by simp [parseRefObject])
  | f2 + 1 =>
      unfold parseRefObject at hp2
      match hf2 : followRefChain defs st1.registered r2 (f2 + 1) with
      | .error e => rw [hf2] at hp2; exact absurd hp2 (by simp)
      | .ok res =>
          have hcp := chainPath_of_follow defs st1.registered hinv1 (f2 + 1) r2 res hf2
          have hpath : res.path = p := chainPath_det defs (f2 + 1) r2 res.path p n2 hcp h2
          have hfe := (follow_of_chainPath defs st1.registered hinv1 (f2 + 1) r2 p
            (hpath ▸ hcp)).1 i hlook
          rw [hfe] at hf2
          injection hf2 with hf2
          subst hf2
          rw [hfe] at hp2
          injection hp2 with hp2
          obtain ⟨ho, hs⟩ := Prod.mk.inj hp2
          exact ⟨i, hoid1, ho.symm, hs.symm⟩

/-- A small definition table: one object `A` and two references to it. -/
def demoDefs : Defs :=
  [("A", .obj [("x", .scalar "integer")]), ("alias1", .ref "A"), ("alias2", .ref "A")]

/-- Witness for C1: parsing `alias1` then `alias2` (both chains end at `A`)
yields the same node id 0 both times, and the second parse leaves the state
untouched. -/
theorem C1_reference_identity_witness :
    ∃ i, (some 0 : Option Nat) = some i ∧ (some 0 : Option Nat) = some i ∧
      (⟨[("A", 0)], 1⟩ : RefState) = ⟨[("A", 0)], 1⟩ :=
  C1_reference_identity demoDefs ⟨[], 0⟩ ⟨[("A", 0)], 1⟩ ⟨[("A", 0)], 1⟩
    "alias1" "alias2" "A" [("x", .scalar "integer")] (some 0) (some 0) 5 5 2 2
    ⟨List.nodup_nil, by intro p id h; simp at h⟩ rfl rfl rfl rfl rfl

end ConfigDB
